import Mathlib

/-!
Verification of the Commander coordination core against its specification.

Shallow embedding of:
- the dual-write storage engine with its sync queue
  (src/commander_os/storage/base_storage.py)
- the Hub generic record store (src/commander_os/network/relay.py)
- the in-memory liveness registry (src/commander_os/core/state.py)
- the capability-weighted router (src/commander_os/core/node_manager.py)

Fallible external effects (the subclass-provided local SQL write, the HTTP
POST to the Hub, the sqlite INSERT into the sync queue, the json.loads in
the replay loop) are modelled by Boolean oracles passed to each operation:
`true` means the effect succeeds, `false` that it raises/fails, exactly at
the places the Python code observes a failure.
-/

namespace Commander

/-! ### Sync queue rows (table `sync_queue` created in `_create_base_tables`) -/

/-- One row of the `sync_queue` table: `id INTEGER PRIMARY KEY AUTOINCREMENT`,
`table_name`, `operation`, `data` (the `json.dumps` of the payload),
`queued_at TIMESTAMP DEFAULT CURRENT_TIMESTAMP`, `retry_count DEFAULT 0`. -/
structure QEntry where
  id : Nat
  table_name : String
  operation : String
  data : String
  queued_at : Nat
  retry_count : Nat
deriving Repr, DecidableEq

/-- Observable state of a `BaseStorage` instance.  `queue` holds the rows of
`sync_queue` in rowid order; `next_id` is the AUTOINCREMENT counter; `clock`
models `CURRENT_TIMESTAMP`, bumped at each insert (timestamps are taken to be
strictly increasing).  `local_writes` logs the `_write_local` calls that
succeeded, `hub_attempts` counts HTTP POSTs issued to the Hub and
`hub_delivered` logs the (table, data, operation) triples the Hub accepted. -/
structure StorageState where
  enable_htpc : Bool
  queue : List QEntry
  next_id : Nat
  clock : Nat
  local_writes : List (String × String × String)
  hub_attempts : Nat
  hub_delivered : List (String × String × String)
deriving Repr, DecidableEq

/-- `_queue_for_sync`: INSERT the (table, operation, data) triple into
`sync_queue`.  The surrounding try/except swallows an insert failure
(`insertOk = false`): the method then returns with the state unchanged. -/
def queueForSync (insertOk : Bool) (table data operation : String)
    (s : StorageState) : StorageState :=
  if insertOk then
    { s with
      queue := s.queue ++ [⟨s.next_id, table, operation, data, s.clock, 0⟩]
      next_id := s.next_id + 1
      clock := s.clock + 1 }
  else
    s

/-- `_write_htpc`: no-op unless HTPC is enabled; otherwise POST to
`/relay/immediate` (`hubOk` tells whether the POST succeeded).  Timeout and
any other error are both caught and routed to `_queue_for_sync`; the method
itself never raises. -/
def writeHtpc (hubOk queueOk : Bool) (table data operation : String)
    (s : StorageState) : StorageState :=
  if !s.enable_htpc then s
  else
    let s1 := { s with hub_attempts := s.hub_attempts + 1 }
    if hubOk then
      { s1 with hub_delivered := s1.hub_delivered ++ [(table, data, operation)] }
    else
      queueForSync queueOk table data operation s1

/-- `write_data`: write locally first (`localOk` tells whether the
subclass `_write_local` raised; on a raise the try/except returns `False`
with nothing else done), then, if HTPC is enabled, run `_write_htpc`
(which cannot raise), and return `True`. -/
def write_data (localOk hubOk queueOk : Bool) (table data operation : String)
    (s : StorageState) : Bool × StorageState :=
  if !localOk then (false, s)
  else
    let s1 := { s with local_writes := s.local_writes ++ [(table, data, operation)] }
    if s1.enable_htpc then (true, writeHtpc hubOk queueOk table data operation s1)
    else (true, s1)

/-! ### Sync queue replay (`process_sync_queue`) -/

/-- Stable insertion step for `ORDER BY queued_at ASC`. -/
def insertByQueuedAt (e : QEntry) : List QEntry → List QEntry
  | [] => [e]
  | x :: xs =>
    if x.queued_at < e.queued_at then x :: insertByQueuedAt e xs
    else e :: x :: xs

/-- Sort by `queued_at` ascending (stable insertion sort). -/
def sortByQueuedAt : List QEntry → List QEntry
  | [] => []
  | x :: xs => insertByQueuedAt x (sortByQueuedAt xs)

/-- The replay SELECT:
`SELECT ... WHERE retry_count < 5 ORDER BY queued_at ASC LIMIT batch`. -/
def selectForReplay (batch : Nat) (queue : List QEntry) : List QEntry :=
  (sortByQueuedAt (queue.filter (fun e => e.retry_count < 5))).take batch

/-- Loop body of `process_sync_queue` over the fetched records.  For each
record: if `replayErr` (the `json.loads` of the stored data raises) the
except-branch runs `UPDATE ... SET retry_count = retry_count + 1 WHERE id = ?`;
otherwise `_write_htpc` runs (it never raises — a failed delivery silently
re-queues a fresh entry), then `DELETE ... WHERE id = ?` removes the record
and the success counter is bumped. -/
def replayLoop (hubOk queueOk replayErr : Nat → Bool) :
    List QEntry → StorageState → Nat → Nat × StorageState
  | [], s, cnt => (cnt, s)
  | e :: rest, s, cnt =>
    if replayErr e.id then
      let s2 := { s with queue := s.queue.map (fun q =>
        if q.id = e.id then { q with retry_count := q.retry_count + 1 } else q) }
      replayLoop hubOk queueOk replayErr rest s2 cnt
    else
      let s1 := writeHtpc (hubOk e.id) (queueOk e.id) e.table_name e.data e.operation s
      let s2 := { s1 with queue := s1.queue.filter (fun q => q.id ≠ e.id) }
      replayLoop hubOk queueOk replayErr rest s2 (cnt + 1)

/-- `process_sync_queue`: return 0 when HTPC is disabled or nothing is
selected; otherwise run the loop over the selected snapshot. -/
def process_sync_queue (hubOk queueOk replayErr : Nat → Bool) (batch : Nat)
    (s : StorageState) : Nat × StorageState :=
  if !s.enable_htpc then (0, s)
  else
    let records := selectForReplay batch s.queue
    if records.isEmpty then (0, s)
    else replayLoop hubOk queueOk replayErr records s 0

/-! ### Claims C1–C3 about the write path and the replay cycle -/

/-- Singleton-queue state used to exercise the replay cycle: one queued
entry with id 1, retry_count 0. -/
def sQ : StorageState :=
  ⟨true, [⟨1, "t", "insert", "d", 0, 0⟩], 2, 1, [], 0, []⟩

/-- C1: evaluating `process_sync_queue` at a one-entry queue whose Hub
delivery fails shows the code deleting the original entry (id 1), enqueuing
a fresh duplicate (id 2, retry_count 0) in its place, and reporting the
record as successfully synced — the retry-increment branch is unreachable
for delivery failures because `_write_htpc` swallows them. -/
theorem process_sync_queue_deletes_failed_entry :
    process_sync_queue (fun _ => false) (fun _ => true) (fun _ => false) 100 sQ
      = (1, ⟨true, [⟨2, "t", "insert", "d", 1, 0⟩], 3, 2, [], 1, []⟩) := by
  decide

/-- Initial empty storage state with HTPC enabled. -/
def s0 : StorageState := ⟨true, [], 1, 0, [], 0, []⟩

/-- C2 counterexample: with the Hub delivery failing and the fallback
enqueue also failing, `write_data` still returns `True` while the sync
queue stays empty (one Hub POST was attempted), contradicting the claim
that the call returns ok only if the enqueue durably succeeded. -/
theorem write_data_returns_ok_despite_enqueue_failure :
    (write_data true false false "t" "d" "insert" s0).1 = true ∧
    (write_data true false false "t" "d" "insert" s0).2.queue = [] ∧
    (write_data true false false "t" "d" "insert" s0).2.hub_attempts = 1 := by
  decide

/-- C2 (amended): when the local write succeeds and the Hub delivery fails,
`write_data` returns `True` regardless of the fallback enqueue: if the
enqueue succeeds the entry lands in the queue, and if it fails the failure
is swallowed and the queue is left unchanged. -/
theorem write_data_hub_failure_best_effort (queueOk : Bool)
    (table data operation : String) (s : StorageState)
    (h : s.enable_htpc = true) :
    (write_data true false queueOk table data operation s).1 = true ∧
    (write_data true false queueOk table data operation s).2.queue =
      (if queueOk then
        s.queue ++ [⟨s.next_id, table, operation, data, s.clock, 0⟩]
      else s.queue) := by
  cases queueOk <;>
    simp [write_data, writeHtpc, queueForSync, h]

/-- Witness for `write_data_hub_failure_best_effort` at a concrete state. -/
theorem write_data_hub_failure_best_effort_witness :
    (write_data true false true "t" "d" "insert" s0).1 = true ∧
    (write_data true false true "t" "d" "insert" s0).2.queue =
      (if true then
        s0.queue ++ [⟨s0.next_id, "t", "insert", "d", s0.clock, 0⟩]
      else s0.queue) :=
  write_data_hub_failure_best_effort true "t" "d" "insert" s0 (by decide)

/-- C3: when the local write fails, `write_data` returns `False` and the
entire storage state is untouched — in particular no Hub delivery is
attempted and the sync queue is unchanged. -/
theorem write_data_local_failure_returns_failure (hubOk queueOk : Bool)
    (table data operation : String) (s : StorageState) :
    write_data false hubOk queueOk table data operation s = (false, s) := by
  rfl

/-! ### Batch writes (`batch_write`, `_batch_write_htpc`) -/

/-- One element of the `records` list passed to `batch_write`: a dict with
keys `table`, `data` and an optional `operation`
(read as `record.get('operation', 'insert')`). -/
structure BatchRec where
  table : String
  data : String
  operation : Option String
deriving Repr, DecidableEq

/-- The effective operation of a batch record: `record.get('operation', 'insert')`. -/
def BatchRec.op (r : BatchRec) : String := r.operation.getD "insert"

/-- First phase of `batch_write`: write every record locally, each in its
own try/except (`localOk i` tells whether `_write_local` raised at index
`i`), counting the successes. -/
def batchLocalLoop (localOk : Nat → Bool) :
    Nat → List BatchRec → StorageState → Nat × StorageState
  | _, [], s => (0, s)
  | i, r :: rest, s =>
    if localOk i then
      let s1 := { s with local_writes := s.local_writes ++ [(r.table, r.data, r.op)] }
      let p := batchLocalLoop localOk (i + 1) rest s1
      (p.1 + 1, p.2)
    else
      batchLocalLoop localOk (i + 1) rest s

/-- The fallback loop of `_batch_write_htpc`: `_queue_for_sync` every record
individually (`queueOk i` tells whether the i-th queue insert succeeded). -/
def queueAll (queueOk : Nat → Bool) :
    Nat → List BatchRec → StorageState → StorageState
  | _, [], s => s
  | i, r :: rest, s =>
    queueAll queueOk (i + 1) rest (queueForSync (queueOk i) r.table r.data r.op s)

/-- `_batch_write_htpc`: single POST to `/relay/batch` for the whole list;
on any failure, fall back to queueing every record individually. -/
def batchWriteHtpc (batchHubOk : Bool) (queueOk : Nat → Bool)
    (records : List BatchRec) (s : StorageState) : StorageState :=
  if !s.enable_htpc then s
  else
    let s1 := { s with hub_attempts := s.hub_attempts + 1 }
    if batchHubOk then
      { s1 with hub_delivered :=
          s1.hub_delivered ++ records.map (fun r => (r.table, r.data, r.op)) }
    else
      queueAll queueOk 0 records s1

/-- `batch_write`: local loop first, then — only when HTPC is enabled and
at least one local write succeeded — the single batched Hub call; returns
the local success count. -/
def batch_write (localOk : Nat → Bool) (batchHubOk : Bool) (queueOk : Nat → Bool)
    (records : List BatchRec) (s : StorageState) : Nat × StorageState :=
  let p := batchLocalLoop localOk 0 records s
  if p.2.enable_htpc && decide (0 < p.1) then
    (p.1, batchWriteHtpc batchHubOk queueOk records p.2)
  else p

/-- The sync-queue rows produced by enqueuing a record list starting from
AUTOINCREMENT counter `nid` and timestamp `clk`. -/
def mkEntries : Nat → Nat → List BatchRec → List QEntry
  | _, _, [] => []
  | nid, clk, r :: rest =>
    ⟨nid, r.table, r.op, r.data, clk, 0⟩ :: mkEntries (nid + 1) (clk + 1) rest

theorem mkEntries_length : ∀ (nid clk : Nat) (rs : List BatchRec),
    (mkEntries nid clk rs).length = rs.length
  | _, _, [] => rfl
  | nid, clk, _ :: rest => by
    simp [mkEntries, mkEntries_length (nid + 1) (clk + 1) rest]

theorem batchLocalLoop_state (localOk : Nat → Bool) :
    ∀ (rs : List BatchRec) (i : Nat) (s : StorageState),
      (batchLocalLoop localOk i rs s).2.queue = s.queue ∧
      (batchLocalLoop localOk i rs s).2.next_id = s.next_id ∧
      (batchLocalLoop localOk i rs s).2.clock = s.clock ∧
      (batchLocalLoop localOk i rs s).2.enable_htpc = s.enable_htpc
  | [], _, _ => ⟨rfl, rfl, rfl, rfl⟩
  | r :: rest, i, s => by
    simp only [batchLocalLoop]
    split
    · exact batchLocalLoop_state localOk rest (i + 1) _
    · exact batchLocalLoop_state localOk rest (i + 1) s

theorem batchLocalLoop_count (localOk : Nat → Bool) :
    ∀ (rs : List BatchRec) (i : Nat) (s : StorageState),
      (batchLocalLoop localOk i rs s).1
        = (List.range rs.length).countP (fun j => localOk (i + j))
  | [], _, _ => rfl
  | r :: rest, i, s => by
    have harg : ((fun j => localOk (i + j)) ∘ Nat.succ) = fun j => localOk (i + 1 + j) := by
      funext j
      have hj : i + Nat.succ j = i + 1 + j := by omega
      simp [Function.comp, hj]
    simp only [batchLocalLoop, List.length_cons, List.range_succ_eq_map,
      List.countP_cons, List.countP_map, harg]
    split
    · rename_i hi
      rw [batchLocalLoop_count localOk rest (i + 1) _]
      simp [hi]
    · rename_i hi
      rw [batchLocalLoop_count localOk rest (i + 1) s]
      simp only [Bool.not_eq_true] at hi
      simp [hi]

theorem queueAll_queue_of_ok (queueOk : Nat → Bool) (hq : ∀ j, queueOk j = true) :
    ∀ (rs : List BatchRec) (i : Nat) (s : StorageState),
      (queueAll queueOk i rs s).queue = s.queue ++ mkEntries s.next_id s.clock rs
  | [], _, s => by simp [queueAll, mkEntries]
  | r :: rest, i, s => by
    simp only [queueAll, queueForSync, hq i, if_true, mkEntries]
    rw [queueAll_queue_of_ok queueOk hq rest (i + 1)]
    simp

/-- C8: when HTPC is enabled, at least one record of the batch was written
locally (so the batched Hub call happens) and the single batched delivery
fails, every record of the batch is enqueued into the sync queue
individually — the queue grows by exactly the batch size — while
`batch_write` still returns the number of records written locally. -/
theorem batch_write_failure_enqueues_all (localOk queueOk : Nat → Bool)
    (records : List BatchRec) (s : StorageState)
    (henable : s.enable_htpc = true)
    (hq : ∀ j, queueOk j = true)
    (hsome : 0 < (List.range records.length).countP localOk) :
    (batch_write localOk false queueOk records s).2.queue
        = s.queue ++ mkEntries s.next_id s.clock records ∧
    (batch_write localOk false queueOk records s).2.queue.length
        = s.queue.length + records.length ∧
    (batch_write localOk false queueOk records s).1
        = (List.range records.length).countP localOk := by
  have hst := batchLocalLoop_state localOk records 0 s
  have hcnt : (batchLocalLoop localOk 0 records s).1
      = (List.range records.length).countP localOk := by
    rw [batchLocalLoop_count localOk records 0 s]
    simp
  have hp2 : (batchLocalLoop localOk 0 records s).2.enable_htpc = true := by
    rw [hst.2.2.2]; exact henable
  have hpos : decide (0 < (batchLocalLoop localOk 0 records s).1) = true := by
    rw [hcnt]
    exact decide_eq_true hsome
  have hcond : ((batchLocalLoop localOk 0 records s).2.enable_htpc
      && decide (0 < (batchLocalLoop localOk 0 records s).1)) = true := by
    rw [hp2, hpos]
    rfl
  have hbw : batch_write localOk false queueOk records s
      = ((batchLocalLoop localOk 0 records s).1,
         batchWriteHtpc false queueOk records (batchLocalLoop localOk 0 records s).2) := by
    simp only [batch_write, hcond]
    simp
  have hqueue : (batch_write localOk false queueOk records s).2.queue
      = s.queue ++ mkEntries s.next_id s.clock records := by
    rw [hbw]
    simp only [batchWriteHtpc, hp2, Bool.not_true, Bool.false_eq_true, if_false]
    rw [queueAll_queue_of_ok queueOk hq records 0]
    simp [hst.1, hst.2.1, hst.2.2.1]
  refine ⟨hqueue, ?_, ?_⟩
  · rw [hqueue]
    simp [mkEntries_length]
  · rw [hbw]
    exact hcnt

/-- Witness for `batch_write_failure_enqueues_all`: a concrete two-record
batch against an empty queue. -/
theorem batch_write_failure_enqueues_all_witness :
    (batch_write (fun _ => true) false (fun _ => true)
        [⟨"t", "d1", none⟩, ⟨"t", "d2", some "update"⟩] s0).2.queue
      = s0.queue ++ mkEntries s0.next_id s0.clock
          [⟨"t", "d1", none⟩, ⟨"t", "d2", some "update"⟩] ∧
    (batch_write (fun _ => true) false (fun _ => true)
        [⟨"t", "d1", none⟩, ⟨"t", "d2", some "update"⟩] s0).2.queue.length
      = s0.queue.length + 2 ∧
    (batch_write (fun _ => true) false (fun _ => true)
        [⟨"t", "d1", none⟩, ⟨"t", "d2", some "update"⟩] s0).1
      = (List.range 2).countP (fun _ => true) :=
  batch_write_failure_enqueues_all (fun _ => true) (fun _ => true)
    [⟨"t", "d1", none⟩, ⟨"t", "d2", some "update"⟩] s0
    (by decide) (fun _ => rfl) (by decide)

/-! ### Replay ordering and the retry cap (C7) -/

theorem mem_insertByQueuedAt (a e : QEntry) :
    ∀ l, a ∈ insertByQueuedAt e l ↔ a = e ∨ a ∈ l
  | [] => by simp [insertByQueuedAt]
  | x :: xs => by
    simp only [insertByQueuedAt]
    split
    · simp only [List.mem_cons, mem_insertByQueuedAt a e xs]
      tauto
    · simp [List.mem_cons]

theorem mem_sortByQueuedAt (a : QEntry) :
    ∀ l, a ∈ sortByQueuedAt l ↔ a ∈ l
  | [] => Iff.rfl
  | x :: xs => by
    simp [sortByQueuedAt, mem_insertByQueuedAt, mem_sortByQueuedAt a xs]

theorem pairwise_insertByQueuedAt (e : QEntry) :
    ∀ l, l.Pairwise (fun a b : QEntry => a.queued_at ≤ b.queued_at) →
      (insertByQueuedAt e l).Pairwise (fun a b : QEntry => a.queued_at ≤ b.queued_at)
  | [], _ => by simp [insertByQueuedAt]
  | x :: xs, h => by
    have hhead := (List.pairwise_cons.mp h).1
    have hxs := (List.pairwise_cons.mp h).2
    simp only [insertByQueuedAt]
    split
    · rename_i hx
      refine List.pairwise_cons.mpr ⟨?_, pairwise_insertByQueuedAt e xs hxs⟩
      intro b hb
      rcases (mem_insertByQueuedAt b e xs).mp hb with rfl | hbxs
      · exact Nat.le_of_lt hx
      · exact hhead b hbxs
    · rename_i hx
      refine List.pairwise_cons.mpr ⟨?_, h⟩
      intro b hb
      have hex : e.queued_at ≤ x.queued_at := Nat.le_of_not_lt hx
      rcases List.mem_cons.mp hb with rfl | hbxs
      · exact hex
      · exact le_trans hex (hhead b hbxs)

theorem pairwise_sortByQueuedAt :
    ∀ l, (sortByQueuedAt l).Pairwise (fun a b : QEntry => a.queued_at ≤ b.queued_at)
  | [] => List.Pairwise.nil
  | x :: xs => pairwise_insertByQueuedAt x _ (pairwise_sortByQueuedAt xs)

theorem insertByQueuedAt_of_le (e : QEntry) :
    ∀ l, (∀ b ∈ l, e.queued_at ≤ b.queued_at) → insertByQueuedAt e l = e :: l
  | [], _ => rfl
  | x :: xs, h => by
    simp only [insertByQueuedAt]
    rw [if_neg (Nat.not_lt.mpr (h x (List.mem_cons_self x xs)))]

theorem sortByQueuedAt_of_pairwise :
    ∀ l, l.Pairwise (fun a b : QEntry => a.queued_at ≤ b.queued_at) →
      sortByQueuedAt l = l
  | [], _ => rfl
  | x :: xs, h => by
    have hhead := (List.pairwise_cons.mp h).1
    have hxs := (List.pairwise_cons.mp h).2
    simp only [sortByQueuedAt]
    rw [sortByQueuedAt_of_pairwise xs hxs]
    exact insertByQueuedAt_of_le x xs hhead

theorem mem_queue_writeHtpc (hubOk queueOk : Bool) (t d o : String)
    (s : StorageState) (e : QEntry) (he : e ∈ s.queue) :
    e ∈ (writeHtpc hubOk queueOk t d o s).queue := by
  unfold writeHtpc queueForSync
  split
  · exact he
  · split
    · exact he
    · split
      · exact List.mem_append_left _ he
      · exact he

theorem replayLoop_preserves (hubOk queueOk replayErr : Nat → Bool) (e : QEntry) :
    ∀ (recs : List QEntry) (s : StorageState) (cnt : Nat),
      e ∈ s.queue → (∀ r ∈ recs, r.id ≠ e.id) →
      e ∈ (replayLoop hubOk queueOk replayErr recs s cnt).2.queue
  | [], _, _, he, _ => he
  | r :: rest, s, cnt, he, hr => by
    have hrid : r.id ≠ e.id := hr r (List.mem_cons_self r rest)
    have hrest : ∀ r' ∈ rest, r'.id ≠ e.id :=
      fun r' h' => hr r' (List.mem_cons_of_mem r h')
    simp only [replayLoop]
    split
    · refine replayLoop_preserves hubOk queueOk replayErr e rest _ cnt ?_ hrest
      refine List.mem_map.mpr ⟨e, he, ?_⟩
      rw [if_neg (fun hc => hrid hc.symm)]
    · refine replayLoop_preserves hubOk queueOk replayErr e rest _ (cnt + 1) ?_ hrest
      refine List.mem_filter.mpr
        ⟨mem_queue_writeHtpc (hubOk r.id) (queueOk r.id) r.table_name r.data
          r.operation s e he, ?_⟩
      exact decide_eq_true (fun hc => hrid hc.symm)

theorem mem_queue_queueAll (queueOk : Nat → Bool) (e : QEntry) :
    ∀ (rs : List BatchRec) (i : Nat) (s : StorageState),
      e ∈ s.queue → e ∈ (queueAll queueOk i rs s).queue
  | [], _, _, he => he
  | r :: rest, i, s, he => by
    refine mem_queue_queueAll queueOk e rest (i + 1) _ ?_
    unfold queueForSync
    split
    · exact List.mem_append_left _ he
    · exact he

/-- C7: (i) every entry selected for replay has `retry_count < 5` and comes
from the queue; (ii) the selection is ordered by `queued_at` ascending;
(iii) on a queue already in `queued_at` order the selection is exactly the
first `batch` under-cap entries in enqueue (FIFO) order; (iv)–(vi) no
storage-engine operation deletes an entry whose `retry_count` has reached
the cap: such entries survive `process_sync_queue` (given the primary-key
uniqueness of rowids), `write_data`, and `batch_write`. -/
theorem sync_queue_replay_fifo_and_cap (hubOk queueOk replayErr : Nat → Bool)
    (batch : Nat) (s : StorageState) :
    (∀ r ∈ selectForReplay batch s.queue, r.retry_count < 5 ∧ r ∈ s.queue) ∧
    (selectForReplay batch s.queue).Pairwise
      (fun a b : QEntry => a.queued_at ≤ b.queued_at) ∧
    (s.queue.Pairwise (fun a b : QEntry => a.queued_at ≤ b.queued_at) →
      selectForReplay batch s.queue
        = (s.queue.filter (fun e => e.retry_count < 5)).take batch) ∧
    ((s.queue.map QEntry.id).Nodup →
      ∀ e ∈ s.queue, 5 ≤ e.retry_count →
        e ∈ (process_sync_queue hubOk queueOk replayErr batch s).2.queue) ∧
    (∀ (localOk hubOk1 queueOk1 : Bool) (t d o : String) (e : QEntry),
      e ∈ s.queue → e ∈ (write_data localOk hubOk1 queueOk1 t d o s).2.queue) ∧
    (∀ (localOk2 queueOk2 : Nat → Bool) (bOk : Bool) (recs : List BatchRec)
      (e : QEntry), e ∈ s.queue →
        e ∈ (batch_write localOk2 bOk queueOk2 recs s).2.queue) := by
  have hsel : ∀ r ∈ selectForReplay batch s.queue, r.retry_count < 5 ∧ r ∈ s.queue := by
    intro r hr
    have h1 : r ∈ sortByQueuedAt (s.queue.filter (fun e => e.retry_count < 5)) :=
      List.take_subset batch _ hr
    have h2 : r ∈ s.queue.filter (fun e => e.retry_count < 5) :=
      (mem_sortByQueuedAt r _).mp h1
    have h3 := List.mem_filter.mp h2
    exact ⟨of_decide_eq_true h3.2, h3.1⟩
  refine ⟨hsel, ?_, ?_, ?_, ?_, ?_⟩
  · exact ((pairwise_sortByQueuedAt
      (s.queue.filter (fun e => e.retry_count < 5))).sublist
        (List.take_sublist batch _))
  · intro hsorted
    unfold selectForReplay
    rw [sortByQueuedAt_of_pairwise _ (hsorted.filter _)]
  · intro hnodup e he hcap
    simp only [process_sync_queue]
    split
    · exact he
    · split
      · exact he
      · refine replayLoop_preserves hubOk queueOk replayErr e _ s 0 he ?_
        intro r hr
        have hr' := hsel r hr
        intro hid
        have hre : r = e := by
          have hinj := List.inj_on_of_nodup_map hnodup
          exact hinj hr'.2 he hid
        rw [hre] at hr'
        omega
  · intro localOk hubOk1 queueOk1 t d o e he
    simp only [write_data]
    split
    · exact he
    · split
      · exact mem_queue_writeHtpc hubOk1 queueOk1 t d o _ e he
      · exact he
  · intro localOk2 queueOk2 bOk recs e he
    have hst := batchLocalLoop_state localOk2 recs 0 s
    have hloc : e ∈ (batchLocalLoop localOk2 0 recs s).2.queue := by
      rw [hst.1]; exact he
    simp only [batch_write]
    split
    · simp only [batchWriteHtpc]
      split
      · exact hloc
      · split
        · exact hloc
        · exact mem_queue_queueAll queueOk2 e recs 0 _ hloc
    · exact hloc

/-- Two-entry state for the C7 witness: one live entry and one entry frozen
at the retry cap. -/
def sCap : StorageState :=
  ⟨true, [⟨1, "t", "insert", "d", 0, 0⟩, ⟨2, "u", "update", "e", 1, 5⟩],
    3, 2, [], 0, []⟩

/-- Witness for `sync_queue_replay_fifo_and_cap` at a concrete queue: the
FIFO selection equation holds and the capped entry survives a full replay
cycle in which every Hub delivery fails. -/
theorem sync_queue_replay_fifo_and_cap_witness :
    selectForReplay 10 sCap.queue
      = (sCap.queue.filter (fun e => e.retry_count < 5)).take 10 ∧
    (⟨2, "u", "update", "e", 1, 5⟩ : QEntry) ∈
      (process_sync_queue (fun _ => false) (fun _ => true) (fun _ => false)
        10 sCap).2.queue := by
  have h := sync_queue_replay_fifo_and_cap (fun _ => false) (fun _ => true)
    (fun _ => false) 10 sCap
  exact ⟨h.2.2.1 (by decide),
    h.2.2.2.1 (by decide) ⟨2, "u", "update", "e", 1, 5⟩ (by decide) (by decide)⟩

/-! ### Liveness registry (src/commander_os/core/state.py) -/

/-- Status enum for individual components (nodes/agents). -/
inductive ComponentStatus where
  | unknown
  | starting
  | ready
  | busy
  | error
  | offline
deriving Repr, DecidableEq

/-- Runtime state of a compute node (`NodeState` dataclass).  `resources`
and `metrics` are string-keyed dicts whose values are modelled opaquely. -/
structure NodeState where
  node_id : String
  hostname : String
  port : Nat
  status : ComponentStatus
  registered_agents : List String
  last_heartbeat : Int
  registration_time : Int
  resources : List (String × String)
  metrics : List (String × String)
deriving Repr, DecidableEq

/-- Runtime state of a single agent (`AgentState` dataclass). -/
structure AgentState where
  agent_id : String
  node_id : String
  role : String
  status : ComponentStatus
  model_loaded : Bool
  current_task_id : Option String
  last_heartbeat : Int
  metadata : List (String × String)
deriving Repr, DecidableEq

/-- The two component maps of `StateManager` (`self._nodes`,
`self._agents`), modelled as insertion-ordered association lists exactly as
Python dicts behave.  The system-level fields (`_system_status`,
`_start_time`) are not touched by any operation under verification and are
omitted. -/
structure StateManager where
  nodes : List (String × NodeState)
  agents : List (String × AgentState)
deriving Repr, DecidableEq

/-- Python `key in dict`. -/
def hasKey {β : Type} (l : List (String × β)) (k : String) : Bool :=
  l.any (fun p => p.1 = k)

/-- Python `dict[k].field = ...`: rewrite the value stored at key `k`,
leaving every other binding alone. -/
def mapVal {β : Type} (k : String) (g : β → β) (l : List (String × β)) :
    List (String × β) :=
  l.map (fun p => if p.1 = k then (p.1, g p.2) else p)

/-- Python `dict.update(new)`: existing keys are overwritten in place,
new keys are appended in iteration order. -/
def dictUpdate (d new : List (String × String)) : List (String × String) :=
  new.foldl (fun acc kv =>
    if hasKey acc kv.1 then mapVal kv.1 (fun _ => kv.2) acc
    else acc ++ [kv]) d

/-- `register_node`: create a STARTING record for a new id; for a known id
only refresh hostname/port/heartbeat (the status is not reset). -/
def register_node (now : Int) (node_id hostname : String) (port : Nat)
    (st : StateManager) : StateManager :=
  if !(hasKey st.nodes node_id) then
    { st with nodes := st.nodes ++
        [(node_id,
          { node_id := node_id, hostname := hostname, port := port,
            status := ComponentStatus.starting, registered_agents := [],
            last_heartbeat := now, registration_time := now,
            resources := [], metrics := [("tps", "0.0"), ("load", "0.0")] })] }
  else
    { st with
      nodes := mapVal node_id
          (fun n => { n with hostname := hostname, port := port, last_heartbeat := now })
          st.nodes }

/-- `update_node_status`: guarded by `if node_id in self._nodes`. -/
def update_node_status (now : Int) (node_id : String) (status : ComponentStatus)
    (st : StateManager) : StateManager :=
  if hasKey st.nodes node_id then
    { st with
      nodes := mapVal node_id
          (fun n => { n with status := status, last_heartbeat := now }) st.nodes }
  else st

/-- `update_node_heartbeat`: timestamp only, no status change. -/
def update_node_heartbeat (now : Int) (node_id : String)
    (st : StateManager) : StateManager :=
  if hasKey st.nodes node_id then
    { st with
      nodes := mapVal node_id
          (fun n => { n with last_heartbeat := now }) st.nodes }
  else st

/-- `update_node_metrics`: `metrics.update(m)` plus a heartbeat refresh. -/
def update_node_metrics (now : Int) (node_id : String)
    (m : List (String × String)) (st : StateManager) : StateManager :=
  if hasKey st.nodes node_id then
    { st with
      nodes := mapVal node_id
          (fun n => { n with metrics := dictUpdate n.metrics m, last_heartbeat := now })
          st.nodes }
  else st

/-- The node-side link made by `register_agent` for a fresh agent: append
the agent id to `registered_agents` unless already present. -/
def linkAgent (agent_id : String) (n : NodeState) : NodeState :=
  { n with registered_agents :=
      if agent_id ∈ n.registered_agents then n.registered_agents
      else n.registered_agents ++ [agent_id] }

/-- The update branch of `register_agent` for a known agent id: overwrite
`node_id` and `role` and refresh the heartbeat. -/
def moveAgent (now : Int) (node_id role : String) (a : AgentState) : AgentState :=
  { a with node_id := node_id, role := role, last_heartbeat := now }

/-- `register_agent`: create a STARTING record for a new id and link it
into the node's `registered_agents` (only if that node exists); for a known
id only update `node_id`, `role` and the heartbeat — the node-side lists
are not touched. -/
def register_agent (now : Int) (agent_id node_id role : String)
    (st : StateManager) : StateManager :=
  if !(hasKey st.agents agent_id) then
    { st with
      agents := st.agents ++
        [(agent_id,
          { agent_id := agent_id, node_id := node_id, role := role,
            status := ComponentStatus.starting, model_loaded := false,
            current_task_id := none, last_heartbeat := now, metadata := [] })]
      nodes :=
        if hasKey st.nodes node_id then
          mapVal node_id (linkAgent agent_id) st.nodes
        else st.nodes }
  else
    { st with
      agents := mapVal agent_id (moveAgent now node_id role) st.agents }

/-- `update_agent_status`: status, heartbeat and (when given) the task id. -/
def update_agent_status (now : Int) (agent_id : String)
    (status : ComponentStatus) (task_id : Option String)
    (st : StateManager) : StateManager :=
  if hasKey st.agents agent_id then
    { st with
      agents := mapVal agent_id
          (fun a => { a with status := status, last_heartbeat := now, current_task_id := (match task_id with | some t => some t | none => a.current_task_id) })
          st.agents }
  else st

/-- `update_agent_role`: role only (no heartbeat refresh). -/
def update_agent_role (agent_id role : String)
    (st : StateManager) : StateManager :=
  if hasKey st.agents agent_id then
    { st with
      agents := mapVal agent_id
          (fun a => { a with role := role }) st.agents }
  else st

/-- `get_node`: dict lookup returning the stored record. -/
def get_node (st : StateManager) (node_id : String) : Option NodeState :=
  (st.nodes.find? (fun p => p.1 = node_id)).map (fun p => p.2)

/-- The staleness test of `prune_stale_components` for a node:
`status != OFFLINE and (now - last_heartbeat) > timeout`. -/
def nodeStale (now timeout : Int) (n : NodeState) : Bool :=
  decide (n.status ≠ ComponentStatus.offline) &&
    decide (now - n.last_heartbeat > timeout)

/-- The staleness test of `prune_stale_components` for an agent. -/
def agentStale (now timeout : Int) (a : AgentState) : Bool :=
  decide (a.status ≠ ComponentStatus.offline) &&
    decide (now - a.last_heartbeat > timeout)

/-- `prune_stale_components`: functional rendering of the two in-place
for-loops.  Each entry is handled independently: a stale entry's status is
forced to OFFLINE and its tag recorded; the changed-list holds the node
tags in iteration order followed by the agent tags. -/
def prune_stale_components (now timeout : Int) (st : StateManager) :
    List String × StateManager :=
  let nodes1 := st.nodes.map (fun p =>
    if nodeStale now timeout p.2 then
      (p.1, { p.2 with status := ComponentStatus.offline })
    else p)
  let changedN := st.nodes.filterMap (fun p =>
    if nodeStale now timeout p.2 then some ("node:" ++ p.1) else none)
  let agents1 := st.agents.map (fun p =>
    if agentStale now timeout p.2 then
      (p.1, { p.2 with status := ComponentStatus.offline })
    else p)
  let changedA := st.agents.filterMap (fun p =>
    if agentStale now timeout p.2 then some ("agent:" ++ p.1) else none)
  (changedN ++ changedA, { st with nodes := nodes1, agents := agents1 })

theorem mem_zip_map {α β : Type} (f : α → β) :
    ∀ (l : List α) (p : α) (q : β), (p, q) ∈ l.zip (l.map f) →
      p ∈ l ∧ q = f p
  | [], _, _, h => by simp at h
  | a :: as, p, q, h => by
    simp only [List.map_cons, List.zip_cons_cons, List.mem_cons] at h
    rcases h with heq | htl
    · have h1 : p = a := (Prod.ext_iff.mp heq).1
      have h2 : q = f a := (Prod.ext_iff.mp heq).2
      subst h1
      exact ⟨List.mem_cons_self p as, h2⟩
    · have hr := mem_zip_map f as p q htl
      exact ⟨List.mem_cons_of_mem a hr.1, hr.2⟩

/-- C5: after one `prune_stale_components now timeout` sweep, positionally:
every node/agent entry that was not already OFFLINE and whose heartbeat is
older than the timeout is OFFLINE afterwards and its tagged id is in the
returned changed-list; every entry heartbeated within the window (or
already OFFLINE) is completely untouched; and the sweep never assigns any
status other than OFFLINE.  The entry count is preserved. -/
theorem prune_stale_components_spec (now timeout : Int) (st : StateManager) :
    ((prune_stale_components now timeout st).2.nodes.length = st.nodes.length ∧
     (prune_stale_components now timeout st).2.agents.length = st.agents.length) ∧
    (∀ p q, (p, q) ∈ st.nodes.zip (prune_stale_components now timeout st).2.nodes →
      q.1 = p.1 ∧
      (p.2.status ≠ ComponentStatus.offline →
        now - p.2.last_heartbeat > timeout →
        q.2.status = ComponentStatus.offline ∧
        ("node:" ++ p.1) ∈ (prune_stale_components now timeout st).1) ∧
      ((p.2.status = ComponentStatus.offline ∨
        now - p.2.last_heartbeat ≤ timeout) → q = p) ∧
      (q.2.status = p.2.status ∨ q.2.status = ComponentStatus.offline)) ∧
    (∀ p q, (p, q) ∈ st.agents.zip (prune_stale_components now timeout st).2.agents →
      q.1 = p.1 ∧
      (p.2.status ≠ ComponentStatus.offline →
        now - p.2.last_heartbeat > timeout →
        q.2.status = ComponentStatus.offline ∧
        ("agent:" ++ p.1) ∈ (prune_stale_components now timeout st).1) ∧
      ((p.2.status = ComponentStatus.offline ∨
        now - p.2.last_heartbeat ≤ timeout) → q = p) ∧
      (q.2.status = p.2.status ∨ q.2.status = ComponentStatus.offline)) := by
  refine ⟨⟨?_, ?_⟩, ?_, ?_⟩
  · simp [prune_stale_components]
  · simp [prune_stale_components]
  · intro p q hpq
    have hnodes : (prune_stale_components now timeout st).2.nodes
        = st.nodes.map (fun r =>
            if nodeStale now timeout r.2 then
              (r.1, { r.2 with status := ComponentStatus.offline })
            else r) := rfl
    rw [hnodes] at hpq
    obtain ⟨hp, hq⟩ := mem_zip_map _ st.nodes p q hpq
    by_cases hstale : nodeStale now timeout p.2 = true
    · have hs := hstale
      unfold nodeStale at hs
      rw [Bool.and_eq_true, decide_eq_true_eq, decide_eq_true_eq] at hs
      rw [hq, if_pos hstale]
      refine ⟨rfl, fun _ _ => ⟨rfl, ?_⟩, fun hcon => ?_, Or.inr rfl⟩
      · refine List.mem_append_left _ ?_
        refine List.mem_filterMap.mpr ⟨p, hp, ?_⟩
        rw [if_pos hstale]
      · rcases hcon with hoff | hle
        · exact absurd hoff hs.1
        · exact absurd hs.2 (not_lt.mpr hle)
    · have hs : ¬(p.2.status ≠ ComponentStatus.offline ∧
          now - p.2.last_heartbeat > timeout) := by
        intro hc
        apply hstale
        unfold nodeStale
        rw [Bool.and_eq_true]
        exact ⟨decide_eq_true hc.1, decide_eq_true hc.2⟩
      rw [hq, if_neg hstale]
      exact ⟨rfl, fun h1 h2 => absurd ⟨h1, h2⟩ hs, fun _ => rfl, Or.inl rfl⟩
  · intro p q hpq
    have hagents : (prune_stale_components now timeout st).2.agents
        = st.agents.map (fun r =>
            if agentStale now timeout r.2 then
              (r.1, { r.2 with status := ComponentStatus.offline })
            else r) := rfl
    rw [hagents] at hpq
    obtain ⟨hp, hq⟩ := mem_zip_map _ st.agents p q hpq
    by_cases hstale : agentStale now timeout p.2 = true
    · have hs := hstale
      unfold agentStale at hs
      rw [Bool.and_eq_true, decide_eq_true_eq, decide_eq_true_eq] at hs
      rw [hq, if_pos hstale]
      refine ⟨rfl, fun _ _ => ⟨rfl, ?_⟩, fun hcon => ?_, Or.inr rfl⟩
      · refine List.mem_append_right _ ?_
        refine List.mem_filterMap.mpr ⟨p, hp, ?_⟩
        rw [if_pos hstale]
      · rcases hcon with hoff | hle
        · exact absurd hoff hs.1
        · exact absurd hs.2 (not_lt.mpr hle)
    · have hs : ¬(p.2.status ≠ ComponentStatus.offline ∧
          now - p.2.last_heartbeat > timeout) := by
        intro hc
        apply hstale
        unfold agentStale
        rw [Bool.and_eq_true]
        exact ⟨decide_eq_true hc.1, decide_eq_true hc.2⟩
      rw [hq, if_neg hstale]
      exact ⟨rfl, fun h1 h2 => absurd ⟨h1, h2⟩ hs, fun _ => rfl, Or.inl rfl⟩

/-- Concrete node used by the registry witnesses: READY, heartbeat at 0. -/
def nPr : NodeState :=
  ⟨"n1", "h", 1, ComponentStatus.ready, [], 0, 0, [], []⟩

/-- Concrete agent used by the registry witnesses: READY, heartbeat at 90. -/
def aPr : AgentState :=
  ⟨"a1", "n1", "coder", ComponentStatus.ready, false, none, 90, []⟩

/-- Concrete registry with one stale node and one fresh agent. -/
def stPr : StateManager := ⟨[("n1", nPr)], [("a1", aPr)]⟩

/-- Witness for `prune_stale_components_spec`: at time 100 with timeout 60,
the stale node n1 is demoted and reported. -/
theorem prune_stale_components_spec_witness :
    ("n1", { nPr with status := ComponentStatus.offline }).2.status
        = ComponentStatus.offline ∧
    ("node:" ++ "n1") ∈ (prune_stale_components 100 60 stPr).1 :=
  ((prune_stale_components_spec 100 60 stPr).2.1 ("n1", nPr)
      ("n1", { nPr with status := ComponentStatus.offline })
      (by decide)).2.1 (by decide) (by decide)

theorem hasKey_iff {β : Type} (l : List (String × β)) (tgt : String) :
    hasKey l tgt = true ↔ ∃ p ∈ l, p.1 = tgt := by
  simp [hasKey, List.any_eq_true]

/-- C10: each registry mutator — `update_node_status`,
`update_node_heartbeat`, `update_node_metrics`, `update_agent_status`,
`update_agent_role` — is a silent no-op when the target id is not
registered: it returns the state unchanged, creating no entry. -/
theorem absent_id_mutators_are_noops (now : Int) (cid : String)
    (st : StateManager) (status : ComponentStatus)
    (m : List (String × String)) (role : String) (task : Option String) :
    ((∀ p ∈ st.nodes, p.1 ≠ cid) →
      update_node_status now cid status st = st ∧
      update_node_heartbeat now cid st = st ∧
      update_node_metrics now cid m st = st) ∧
    ((∀ p ∈ st.agents, p.1 ≠ cid) →
      update_agent_status now cid status task st = st ∧
      update_agent_role cid role st = st) := by
  constructor
  · intro hmiss
    have hk : hasKey st.nodes cid = false := by
      cases hc : hasKey st.nodes cid
      · rfl
      · obtain ⟨p, hp, hkey⟩ := (hasKey_iff _ _).mp hc
        exact absurd hkey (hmiss p hp)
    refine ⟨?_, ?_, ?_⟩ <;>
      simp [update_node_status, update_node_heartbeat, update_node_metrics, hk]
  · intro hmiss
    have hk : hasKey st.agents cid = false := by
      cases hc : hasKey st.agents cid
      · rfl
      · obtain ⟨p, hp, hkey⟩ := (hasKey_iff _ _).mp hc
        exact absurd hkey (hmiss p hp)
    refine ⟨?_, ?_⟩ <;>
      simp [update_agent_status, update_agent_role, hk]

/-- Witness for `absent_id_mutators_are_noops` at an id that is neither a
node key nor an agent key of the concrete registry. -/
theorem absent_id_mutators_are_noops_witness :
    update_node_status 0 "zz" ComponentStatus.ready stPr = stPr ∧
    update_agent_role "zz" "x" stPr = stPr := by
  have h := absent_id_mutators_are_noops 0 "zz" stPr ComponentStatus.ready [] "x" none
  exact ⟨(h.1 (by decide)).1, (h.2 (by decide)).2⟩

/-! ### The inverse-list invariant of the registry (C9) -/

/-- The registry operations named by the claim. -/
inductive RegOp where
  | regNode (node_id hostname : String) (port : Nat)
  | regAgent (agent_id node_id role : String)
  | nodeStatus (node_id : String) (status : ComponentStatus)
  | nodeHeartbeat (node_id : String)
  | nodeMetrics (node_id : String) (m : List (String × String))
  | agentStatus (agent_id : String) (status : ComponentStatus) (task : Option String)
  | agentRole (agent_id role : String)
deriving Repr, DecidableEq

/-- Apply one registry operation at wall-clock time `now`. -/
def applyOp (now : Int) (op : RegOp) (st : StateManager) : StateManager :=
  match op with
  | RegOp.regNode nid host port => register_node now nid host port st
  | RegOp.regAgent aid nid role => register_agent now aid nid role st
  | RegOp.nodeStatus nid s1 => update_node_status now nid s1 st
  | RegOp.nodeHeartbeat nid => update_node_heartbeat now nid st
  | RegOp.nodeMetrics nid m => update_node_metrics now nid m st
  | RegOp.agentStatus aid s1 t => update_agent_status now aid s1 t st
  | RegOp.agentRole aid r => update_agent_role aid r st

/-- Apply a timestamped operation sequence left to right. -/
def applySeq : List (Int × RegOp) → StateManager → StateManager
  | [], st => st
  | (now, op) :: rest, st => applySeq rest (applyOp now op st)

/-- A freshly constructed `StateManager`: both dicts empty. -/
def initSM : StateManager := ⟨[], []⟩

/-- The inverse-list invariant: every agent whose `node_id` names a
registered node appears in that node's `registered_agents`, and every
element of a node's `registered_agents` is the id of a registered agent
whose `node_id` points back at that node. -/
def registryInv (st : StateManager) : Prop :=
  (∀ a ∈ st.agents, ∀ n ∈ st.nodes,
    a.2.node_id = n.1 → a.1 ∈ n.2.registered_agents) ∧
  (∀ n ∈ st.nodes, ∀ x ∈ n.2.registered_agents,
    ∃ a ∈ st.agents, a.1 = x ∧ a.2.node_id = n.1)

/-- Auxiliary invariant: every registered agent's `node_id` names a
registered node. -/
def agentsLinked (st : StateManager) : Prop :=
  ∀ a ∈ st.agents, hasKey st.nodes a.2.node_id = true

/-- Wellformedness of one operation against the current state: a
`register_agent` call must name an already-registered node, and must not
move an already-registered agent to a different node. -/
def opOK (st : StateManager) : RegOp → Bool
  | RegOp.regAgent aid nid _ =>
    hasKey st.nodes nid &&
      st.agents.all (fun p => if p.1 = aid then decide (p.2.node_id = nid) else true)
  | _ => true

/-- Wellformedness of a whole operation sequence, checked stepwise. -/
def opsOK : StateManager → List (Int × RegOp) → Bool
  | _, [] => true
  | st, (now, op) :: rest => opOK st op && opsOK (applyOp now op st) rest

theorem hasKey_mapVal {β : Type} (k tgt : String) (g : β → β) :
    ∀ l : List (String × β), hasKey (mapVal k g l) tgt = hasKey l tgt
  | [] => rfl
  | p :: ps => by
    have ih := hasKey_mapVal k tgt g ps
    simp only [mapVal, hasKey, List.map_cons, List.any_cons] at ih ⊢
    split
    · simp [ih]
    · simp [ih]

theorem mem_mapVal {β : Type} {l : List (String × β)} {q : String × β}
    (k : String) (g : β → β) :
    q ∈ mapVal k g l ↔ ∃ p ∈ l, q = if p.1 = k then (p.1, g p.2) else p := by
  simp only [mapVal, List.mem_map]
  constructor
  · rintro ⟨p, hp, rfl⟩
    exact ⟨p, hp, rfl⟩
  · rintro ⟨p, hp, rfl⟩
    exact ⟨p, hp, rfl⟩

theorem inv_nodes_mapVal (st : StateManager) (k : String)
    (g : NodeState → NodeState)
    (hras : ∀ n, (g n).registered_agents = n.registered_agents)
    (hinv : registryInv st) (hlink : agentsLinked st) :
    registryInv { st with nodes := mapVal k g st.nodes } ∧
      agentsLinked { st with nodes := mapVal k g st.nodes } := by
  refine ⟨⟨?_, ?_⟩, ?_⟩
  · intro a ha n hn hid
    obtain ⟨p, hp, hneq⟩ := (mem_mapVal k g).mp hn
    subst hneq
    by_cases hk : p.1 = k
    · rw [if_pos hk] at hid ⊢
      show a.1 ∈ (g p.2).registered_agents
      rw [hras p.2]
      exact hinv.1 a ha p hp hid
    · rw [if_neg hk] at hid ⊢
      exact hinv.1 a ha p hp hid
  · intro n hn x hx
    obtain ⟨p, hp, hneq⟩ := (mem_mapVal k g).mp hn
    subst hneq
    by_cases hk : p.1 = k
    · rw [if_pos hk] at hx ⊢
      have hx' : x ∈ p.2.registered_agents := by
        have h0 : x ∈ (g p.2).registered_agents := hx
        rwa [hras p.2] at h0
      obtain ⟨a, ha, h1, h2⟩ := hinv.2 p hp x hx'
      exact ⟨a, ha, h1, h2⟩
    · rw [if_neg hk] at hx ⊢
      exact hinv.2 p hp x hx
  · intro a ha
    show hasKey (mapVal k g st.nodes) a.2.node_id = true
    rw [hasKey_mapVal]
    exact hlink a ha

theorem inv_agents_mapVal (st : StateManager) (k : String)
    (g : AgentState → AgentState)
    (hnid : ∀ a, (g a).node_id = a.node_id)
    (hinv : registryInv st) (hlink : agentsLinked st) :
    registryInv { st with agents := mapVal k g st.agents } ∧
      agentsLinked { st with agents := mapVal k g st.agents } := by
  refine ⟨⟨?_, ?_⟩, ?_⟩
  · intro a ha n hn hid
    obtain ⟨p, hp, hneq⟩ := (mem_mapVal k g).mp ha
    subst hneq
    by_cases hk : p.1 = k
    · rw [if_pos hk] at hid ⊢
      have hid' : p.2.node_id = n.1 := by
        have h0 : (g p.2).node_id = n.1 := hid
        rwa [hnid p.2] at h0
      exact hinv.1 p hp n hn hid'
    · rw [if_neg hk] at hid ⊢
      exact hinv.1 p hp n hn hid
  · intro n hn x hx
    obtain ⟨a, ha, h1, h2⟩ := hinv.2 n hn x hx
    refine ⟨if a.1 = k then (a.1, g a.2) else a,
      List.mem_map_of_mem _ ha, ?_, ?_⟩
    · split
      · exact h1
      · exact h1
    · split
      · show (g a.2).node_id = n.1
        rw [hnid a.2]
        exact h2
      · exact h2
  · intro a ha
    obtain ⟨p, hp, hneq⟩ := (mem_mapVal k g).mp ha
    subst hneq
    by_cases hk : p.1 = k
    · rw [if_pos hk]
      show hasKey st.nodes (g p.2).node_id = true
      rw [hnid p.2]
      exact hlink p hp
    · rw [if_neg hk]
      exact hlink p hp

theorem applyOp_preserves (now : Int) (op : RegOp) (st : StateManager)
    (hinv : registryInv st) (hlink : agentsLinked st)
    (hok : opOK st op = true) :
    registryInv (applyOp now op st) ∧ agentsLinked (applyOp now op st) := by
  cases op with
  | regNode nid host port =>
    simp only [applyOp, register_node]
    split
    · rename_i hnewb
      have hnew : hasKey st.nodes nid = false := by
        cases hc : hasKey st.nodes nid
        · rfl
        · rw [hc] at hnewb
          simp at hnewb
      refine ⟨⟨?_, ?_⟩, ?_⟩
      · intro a ha n hn hid
        rcases List.mem_append.mp hn with hold | hnewmem
        · exact hinv.1 a ha n hold hid
        · have hn1 : n.1 = nid := by
            rw [List.mem_singleton.mp hnewmem]
          exfalso
          have hl := hlink a ha
          rw [hid, hn1, hnew] at hl
          exact Bool.false_ne_true hl
      · intro n hn x hx
        rcases List.mem_append.mp hn with hold | hnewmem
        · exact hinv.2 n hold x hx
        · rw [List.mem_singleton.mp hnewmem] at hx
          simp at hx
      · intro a ha
        have hl := hlink a ha
        simp only [hasKey, List.any_append] at hl ⊢
        rw [hl]
        simp
    · exact inv_nodes_mapVal st nid _ (fun n => rfl) hinv hlink
  | regAgent aid nid role =>
    simp only [opOK, Bool.and_eq_true] at hok
    obtain ⟨hknode, hall⟩ := hok
    simp only [applyOp, register_agent]
    split
    · refine ⟨⟨?_, ?_⟩, ?_⟩
      · intro a ha n hn hid
        obtain ⟨p, hp, hneq⟩ := (mem_mapVal nid (linkAgent aid)).mp hn
        subst hneq
        rcases List.mem_append.mp ha with haold | hanew
        · by_cases hk : p.1 = nid
          · rw [if_pos hk] at hid ⊢
            have hmem : a.1 ∈ p.2.registered_agents := hinv.1 a haold p hp hid
            show a.1 ∈ (linkAgent aid p.2).registered_agents
            unfold linkAgent
            split
            · exact hmem
            · exact List.mem_append_left _ hmem
          · rw [if_neg hk] at hid ⊢
            exact hinv.1 a haold p hp hid
        · rw [List.mem_singleton.mp hanew] at hid ⊢
          by_cases hk : p.1 = nid
          · rw [if_pos hk]
            show aid ∈ (linkAgent aid p.2).registered_agents
            unfold linkAgent
            split
            · rename_i hin
              exact hin
            · exact List.mem_append_right _ (List.mem_singleton_self aid)
          · rw [if_neg hk] at hid
            exact absurd hid.symm hk
      · intro n hn x hx
        obtain ⟨p, hp, hneq⟩ := (mem_mapVal nid (linkAgent aid)).mp hn
        subst hneq
        by_cases hk : p.1 = nid
        · rw [if_pos hk] at hx ⊢
          have hx' : x ∈ p.2.registered_agents ∨ x = aid := by
            revert hx
            show x ∈ (linkAgent aid p.2).registered_agents → _
            unfold linkAgent
            split
            · intro hx
              exact Or.inl hx
            · intro hx
              rcases List.mem_append.mp hx with h | h
              · exact Or.inl h
              · exact Or.inr (List.mem_singleton.mp h)
          rcases hx' with hxr | rfl
          · obtain ⟨a, ha, h1, h2⟩ := hinv.2 p hp x hxr
            exact ⟨a, List.mem_append_left _ ha, h1, h2⟩
          · refine ⟨_, List.mem_append_right _ (List.mem_singleton_self _), rfl, ?_⟩
            exact hk.symm
        · rw [if_neg hk] at hx ⊢
          obtain ⟨a, ha, h1, h2⟩ := hinv.2 p hp x hx
          exact ⟨a, List.mem_append_left _ ha, h1, h2⟩
      · intro a ha
        rcases List.mem_append.mp ha with haold | hanew
        · show hasKey (mapVal nid (linkAgent aid) st.nodes) a.2.node_id = true
          rw [hasKey_mapVal]
          exact hlink a haold
        · rw [List.mem_singleton.mp hanew]
          show hasKey (mapVal nid (linkAgent aid) st.nodes) nid = true
          rw [hasKey_mapVal]
          exact hknode
    · refine ⟨⟨?_, ?_⟩, ?_⟩
      · intro a ha n hn hid
        obtain ⟨p, hp, hneq⟩ := (mem_mapVal aid (moveAgent now nid role)).mp ha
        subst hneq
        by_cases hk : p.1 = aid
        · rw [if_pos hk] at hid ⊢
          have hpn : p.2.node_id = nid := by
            have h0 := List.all_eq_true.mp hall p hp
            rw [if_pos hk] at h0
            exact of_decide_eq_true h0
          have hid2 : p.2.node_id = n.1 := by
            rw [hpn]
            exact hid
          exact hinv.1 p hp n hn hid2
        · rw [if_neg hk] at hid ⊢
          exact hinv.1 p hp n hn hid
      · intro n hn x hx
        obtain ⟨a, ha, h1, h2⟩ := hinv.2 n hn x hx
        refine ⟨_, List.mem_map_of_mem
          (fun p => if p.1 = aid then (p.1, moveAgent now nid role p.2) else p)
          ha, ?_, ?_⟩
        · split
          · exact h1
          · exact h1
        · split
          · rename_i hk
            have han : a.2.node_id = nid := by
              have h0 := List.all_eq_true.mp hall a ha
              rw [if_pos hk] at h0
              exact of_decide_eq_true h0
            show nid = n.1
            rw [← han]
            exact h2
          · exact h2
      · intro a ha
        obtain ⟨p, hp, hneq⟩ := (mem_mapVal aid (moveAgent now nid role)).mp ha
        subst hneq
        by_cases hk : p.1 = aid
        · rw [if_pos hk]
          show hasKey st.nodes nid = true
          exact hknode
        · rw [if_neg hk]
          exact hlink p hp
  | nodeStatus nid s1 =>
    simp only [applyOp, update_node_status]
    split
    · exact inv_nodes_mapVal st nid _ (fun n => rfl) hinv hlink
    · exact ⟨hinv, hlink⟩
  | nodeHeartbeat nid =>
    simp only [applyOp, update_node_heartbeat]
    split
    · exact inv_nodes_mapVal st nid _ (fun n => rfl) hinv hlink
    · exact ⟨hinv, hlink⟩
  | nodeMetrics nid m =>
    simp only [applyOp, update_node_metrics]
    split
    · exact inv_nodes_mapVal st nid _ (fun n => rfl) hinv hlink
    · exact ⟨hinv, hlink⟩
  | agentStatus aid s1 t =>
    simp only [applyOp, update_agent_status]
    split
    · exact inv_agents_mapVal st aid _ (fun a => rfl) hinv hlink
    · exact ⟨hinv, hlink⟩
  | agentRole aid r =>
    simp only [applyOp, update_agent_role]
    split
    · exact inv_agents_mapVal st aid _ (fun a => rfl) hinv hlink
    · exact ⟨hinv, hlink⟩

theorem opsOK_preserves :
    ∀ (ops : List (Int × RegOp)) (st : StateManager),
      registryInv st → agentsLinked st → opsOK st ops = true →
      registryInv (applySeq ops st) ∧ agentsLinked (applySeq ops st)
  | [], _, h1, h2, _ => ⟨h1, h2⟩
  | (now, op) :: rest, st, h1, h2, hok => by
    simp only [opsOK, Bool.and_eq_true] at hok
    have hstep := applyOp_preserves now op st h1 h2 hok.1
    exact opsOK_preserves rest (applyOp now op st) hstep.1 hstep.2 hok.2

/-- Operation sequence exhibiting the C9 counterexample: agent `a` is
registered on node N1 and then re-registered on node N2. -/
def badSeq : List (Int × RegOp) :=
  [(0, RegOp.regNode "N1" "h" 1), (1, RegOp.regNode "N2" "h" 1),
   (2, RegOp.regAgent "a" "N1" "r"), (3, RegOp.regAgent "a" "N2" "r")]

/-- C9 counterexample: after re-registering agent `a` from node N1 to node
N2, `a.node_id = "N2"` but `a` is absent from N2's `registered_agents`
(and stale in N1's) — `register_agent`'s update branch rewrites the
back-reference without maintaining the inverse lists, so the invariant
fails under this operation sequence. -/
theorem reregistration_breaks_inverse_lists :
    ¬ registryInv (applySeq badSeq initSM) := by
  intro h
  have hmem := h.1
    ("a", ⟨"a", "N2", "r", ComponentStatus.starting, false, none, 3, []⟩)
    (by decide)
    ("N2", ⟨"N2", "h", 1, ComponentStatus.starting, [], 1, 1, [],
      [("tps", "0.0"), ("load", "0.0")]⟩)
    (by decide) (by decide)
  exact absurd hmem (by decide)

/-- C9 (amended): the inverse-list invariant holds after every operation
sequence from the empty registry in which each `register_agent` call names
an already-registered node and never moves an already-registered agent to
a different node (the code's update branch rewrites only the agent-side
back-reference, so arbitrary re-registration breaks the lists). -/
theorem registry_inverse_lists_of_wellformed (ops : List (Int × RegOp))
    (h : opsOK initSM ops = true) :
    registryInv (applySeq ops initSM) :=
  (opsOK_preserves ops initSM
    ⟨fun a ha => absurd ha (List.not_mem_nil a),
     fun n hn => absurd hn (List.not_mem_nil n)⟩
    (fun a ha => absurd ha (List.not_mem_nil a)) h).1

/-- Wellformed concrete sequence for the C9 witness. -/
def goodSeq : List (Int × RegOp) :=
  [(0, RegOp.regNode "N1" "h" 1), (1, RegOp.regAgent "a" "N1" "r"),
   (2, RegOp.nodeStatus "N1" ComponentStatus.ready),
   (3, RegOp.agentStatus "a" ComponentStatus.ready none)]

/-- Witness for `registry_inverse_lists_of_wellformed` at a concrete
wellformed sequence. -/
theorem registry_inverse_lists_of_wellformed_witness :
    registryInv (applySeq goodSeq initSM) :=
  registry_inverse_lists_of_wellformed goodSeq (by decide)

/-! ### Capability-weighted router (src/commander_os/core/node_manager.py) -/

/-- Per-node configuration (`NodeConfig` in config_manager.py); only the
fields the router touches are carried along. -/
structure NodeConfig where
  id : String
  host : String
  port : Nat
  tps_benchmark : Int
  enabled : Bool
deriving Repr, DecidableEq

/-- The filter loop of `get_best_worker_node`: keep the configured nodes
whose registry record exists and has status READY. -/
def readyNodes (cfg : List NodeConfig) (st : StateManager) : List NodeConfig :=
  cfg.filter (fun c => match get_node st c.id with
    | some n => decide (n.status = ComponentStatus.ready)
    | none => false)

/-- Stable insertion step for `sorted(..., key=tps_benchmark, reverse=True)`:
pass over strictly greater elements so ties keep their original order. -/
def insertByTpsDesc (c : NodeConfig) : List NodeConfig → List NodeConfig
  | [] => [c]
  | x :: xs =>
    if x.tps_benchmark > c.tps_benchmark then x :: insertByTpsDesc c xs
    else c :: x :: xs

/-- Python's stable sort by `tps_benchmark` descending. -/
def sortByTpsDesc : List NodeConfig → List NodeConfig
  | [] => []
  | x :: xs => insertByTpsDesc x (sortByTpsDesc xs)

/-- `get_best_worker_node`: filter to READY, fall back to the local node id
when nothing is READY, otherwise the head of the descending sort. -/
def get_best_worker_node (cfg : List NodeConfig) (st : StateManager)
    (local_node_id : String) : String :=
  match sortByTpsDesc (readyNodes cfg st) with
  | [] => local_node_id
  | best :: _ => best.id

theorem mem_insertByTpsDesc (a e : NodeConfig) :
    ∀ l, a ∈ insertByTpsDesc e l ↔ a = e ∨ a ∈ l
  | [] => by simp [insertByTpsDesc]
  | x :: xs => by
    simp only [insertByTpsDesc]
    split
    · simp only [List.mem_cons, mem_insertByTpsDesc a e xs]
      tauto
    · simp [List.mem_cons]

theorem mem_sortByTpsDesc (a : NodeConfig) :
    ∀ l, a ∈ sortByTpsDesc l ↔ a ∈ l
  | [] => Iff.rfl
  | x :: xs => by
    simp [sortByTpsDesc, mem_insertByTpsDesc, mem_sortByTpsDesc a xs]

theorem length_insertByTpsDesc (e : NodeConfig) :
    ∀ l, (insertByTpsDesc e l).length = l.length + 1
  | [] => rfl
  | x :: xs => by
    simp only [insertByTpsDesc]
    split
    · simp [length_insertByTpsDesc e xs]
    · simp

theorem length_sortByTpsDesc :
    ∀ l, (sortByTpsDesc l).length = l.length
  | [] => rfl
  | x :: xs => by
    simp [sortByTpsDesc, length_insertByTpsDesc, length_sortByTpsDesc xs]

theorem pairwise_insertByTpsDesc (e : NodeConfig) :
    ∀ l, l.Pairwise (fun x y : NodeConfig => y.tps_benchmark ≤ x.tps_benchmark) →
      (insertByTpsDesc e l).Pairwise
        (fun x y : NodeConfig => y.tps_benchmark ≤ x.tps_benchmark)
  | [], _ => by simp [insertByTpsDesc]
  | x :: xs, h => by
    have hhead := (List.pairwise_cons.mp h).1
    have hxs := (List.pairwise_cons.mp h).2
    simp only [insertByTpsDesc]
    split
    · rename_i hx
      refine List.pairwise_cons.mpr ⟨?_, pairwise_insertByTpsDesc e xs hxs⟩
      intro b hb
      rcases (mem_insertByTpsDesc b e xs).mp hb with rfl | hbxs
      · exact le_of_lt hx
      · exact hhead b hbxs
    · rename_i hx
      refine List.pairwise_cons.mpr ⟨?_, h⟩
      intro b hb
      have hex : x.tps_benchmark ≤ e.tps_benchmark := le_of_not_lt hx
      rcases List.mem_cons.mp hb with rfl | hbxs
      · exact hex
      · exact le_trans (hhead b hbxs) hex

theorem pairwise_sortByTpsDesc :
    ∀ l, (sortByTpsDesc l).Pairwise
      (fun x y : NodeConfig => y.tps_benchmark ≤ x.tps_benchmark)
  | [] => List.Pairwise.nil
  | x :: xs => pairwise_insertByTpsDesc x _ (pairwise_sortByTpsDesc xs)

/-- Registry node record used by the router example. -/
def routerNode (id : String) (s : ComponentStatus) : NodeState :=
  ⟨id, "h", 1, s, [], 0, 0, [], []⟩

/-- Config of the spec's worked example: A score 130, B 60, C 9. -/
def cfgABC : List NodeConfig :=
  [⟨"A", "h", 1, 130, true⟩, ⟨"B", "h", 1, 60, true⟩, ⟨"C", "h", 1, 9, true⟩]

/-- Registry: A and B READY, C OFFLINE. -/
def stAB : StateManager :=
  ⟨[("A", routerNode "A" ComponentStatus.ready),
    ("B", routerNode "B" ComponentStatus.ready),
    ("C", routerNode "C" ComponentStatus.offline)], []⟩

/-- Registry: A went OFFLINE, B still READY. -/
def stB : StateManager :=
  ⟨[("A", routerNode "A" ComponentStatus.offline),
    ("B", routerNode "B" ComponentStatus.ready),
    ("C", routerNode "C" ComponentStatus.offline)], []⟩

/-- Registry: nothing READY. -/
def stNone : StateManager :=
  ⟨[("A", routerNode "A" ComponentStatus.offline),
    ("B", routerNode "B" ComponentStatus.offline),
    ("C", routerNode "C" ComponentStatus.offline)], []⟩

/-- C4: `get_best_worker_node` returns the designated local/default id when
no configured node is READY in the registry, and otherwise the id of a
READY configured node of maximal `tps_benchmark`; on the spec's example it
picks A (130) over B (60) while C (9) is offline, B once A goes offline,
and the fallback with nothing ready. -/
theorem get_best_worker_node_spec (cfg : List NodeConfig) (st : StateManager)
    (local_node_id : String) :
    (readyNodes cfg st = [] →
      get_best_worker_node cfg st local_node_id = local_node_id) ∧
    (readyNodes cfg st ≠ [] →
      ∃ b ∈ readyNodes cfg st,
        get_best_worker_node cfg st local_node_id = b.id ∧
        ∀ c ∈ readyNodes cfg st, c.tps_benchmark ≤ b.tps_benchmark) ∧
    (get_best_worker_node cfgABC stAB "L" = "A" ∧
     get_best_worker_node cfgABC stB "L" = "B" ∧
     get_best_worker_node cfgABC stNone "L" = "L") := by
  refine ⟨?_, ?_, by decide⟩
  · intro h
    simp [get_best_worker_node, h, sortByTpsDesc]
  · intro hne
    cases hsort : sortByTpsDesc (readyNodes cfg st) with
    | nil =>
      exfalso
      have hlen := length_sortByTpsDesc (readyNodes cfg st)
      rw [hsort] at hlen
      exact hne (List.eq_nil_of_length_eq_zero hlen.symm)
    | cons b t =>
      have hb : b ∈ readyNodes cfg st := by
        have : b ∈ sortByTpsDesc (readyNodes cfg st) := by
          rw [hsort]
          exact List.mem_cons_self b t
        exact (mem_sortByTpsDesc b _).mp this
      refine ⟨b, hb, ?_, ?_⟩
      · simp [get_best_worker_node, hsort]
      · intro c hc
        have hpw := pairwise_sortByTpsDesc (readyNodes cfg st)
        rw [hsort] at hpw
        have hcmem : c ∈ b :: t := by
          rw [← hsort]
          exact (mem_sortByTpsDesc c _).mpr hc
        rcases List.mem_cons.mp hcmem with rfl | hct
        · exact le_refl _
        · exact (List.pairwise_cons.mp hpw).1 c hct

/-- Witness for `get_best_worker_node_spec` at the worked example. -/
theorem get_best_worker_node_spec_witness :
    ∃ b ∈ readyNodes cfgABC stAB,
      get_best_worker_node cfgABC stAB "L" = b.id ∧
      ∀ c ∈ readyNodes cfgABC stAB, c.tps_benchmark ≤ b.tps_benchmark :=
  (get_best_worker_node_spec cfgABC stAB "L").2.1 (by decide)

/-! ### Hub generic record store (src/commander_os/network/relay.py) -/

/-- A replication payload: a JSON object, modelled as an insertion-ordered
string-keyed dict.  Values are modelled opaquely as strings — the Hub never
interprets them beyond reading the `id` field and serializing the whole
payload. -/
abbrev Payload := List (String × String)

/-- Python `data.get(k)`. -/
def pget (p : Payload) (k : String) : Option String :=
  (p.find? (fun kv => decide (kv.1 = k))).map (fun kv => kv.2)

/-- Python `json.dumps(data)`, as an opaque injective-enough serialization
(the Hub only ever stores and returns it). -/
def dumps (p : Payload) : String :=
  String.intercalate ", " (p.map (fun kv => kv.1 ++ ": " ++ kv.2))

/-- Python `str(data)` — the fallback id `_insert_record` uses when the
payload carries no `id` field. -/
def pyStr (p : Payload) : String :=
  "pydict " ++ dumps p

/-- One row of a generic Hub table: `data` plus the server-assigned
`created_at`/`updated_at` timestamps, keyed by the TEXT primary key `id`. -/
structure HubRow where
  data : String
  created_at : Int
  updated_at : Int
deriving Repr, DecidableEq

/-- A generic per-(source, table) Hub table. -/
abbrev HubTable := List (String × HubRow)

/-- `SELECT ... WHERE id = rid`. -/
def lookupRow (tbl : HubTable) (rid : String) : Option HubRow :=
  (tbl.find? (fun r => decide (r.1 = rid))).map (fun r => r.2)

/-- `_insert_record`: `INSERT OR REPLACE INTO t (id, data) VALUES (?, ?)` —
the conflicting row is deleted and a fresh row inserted with both
timestamps reset to now; the id falls back to `str(data)` when absent. -/
def insertRecord (now : Int) (p : Payload) (tbl : HubTable) : HubTable :=
  let rid := (pget p "id").getD (pyStr p)
  (tbl.filter (fun r => decide (r.1 ≠ rid))) ++ [(rid, ⟨dumps p, now, now⟩)]

/-- The per-row effect of `_update_record`'s SQL UPDATE. -/
def updRow (now : Int) (d rid : String) (r : String × HubRow) : String × HubRow :=
  if r.1 = rid then (r.1, ⟨d, r.2.created_at, now⟩) else r

/-- `_update_record`: raise ValueError on a falsy id (`None` or `""`),
otherwise `UPDATE t SET data=?, updated_at=now WHERE id=?` — a plain UPDATE
that touches zero rows when the id is absent. -/
def updateRecord (now : Int) (p : Payload) (tbl : HubTable) : Option HubTable :=
  match pget p "id" with
  | none => none
  | some rid =>
    if rid = "" then none
    else some (tbl.map (updRow now (dumps p) rid))

/-- `_delete_record`: raise on a falsy id, otherwise
`DELETE FROM t WHERE id=?`. -/
def deleteRecord (p : Payload) (tbl : HubTable) : Option HubTable :=
  match pget p "id" with
  | none => none
  | some rid =>
    if rid = "" then none
    else some (tbl.filter (fun r => decide (r.1 ≠ rid)))

/-- Payload with id `x` used by the C6 counterexample and witness. -/
def pX : Payload := [("id", "x"), ("v", "1")]

/-- C6 counterexample: applying the `update` operation for id `x` to a
table with no row `x` leaves the table empty — update is a plain SQL
UPDATE, not an upsert, so the stored row does not become the latest
payload when no row existed. -/
theorem updateRecord_absent_id_is_noop :
    updateRecord 5 pX [] = some [] ∧ lookupRow [] "x" = none := by
  constructor
  · rfl
  · rfl

theorem lookupRow_cons (r : String × HubRow) (tbl : HubTable) (rid : String) :
    lookupRow (r :: tbl) rid
      = if r.1 = rid then some r.2 else lookupRow tbl rid := by
  unfold lookupRow
  by_cases h : r.1 = rid
  · simp [List.find?_cons, h]
  · simp [List.find?_cons, h]

theorem lookupRow_append_new (rid : String) (row : HubRow) :
    ∀ tbl : HubTable, (∀ r ∈ tbl, r.1 ≠ rid) →
      lookupRow (tbl ++ [(rid, row)]) rid = some row
  | [], _ => by
    rw [List.nil_append, lookupRow_cons]
    simp
  | r :: rs, h => by
    rw [List.cons_append, lookupRow_cons,
      if_neg (h r (List.mem_cons_self r rs))]
    exact lookupRow_append_new rid row rs
      (fun r' h' => h r' (List.mem_cons_of_mem r h'))

theorem lookupRow_insert_other (rid rid2 : String) (row : HubRow)
    (hne : rid2 ≠ rid) :
    ∀ tbl : HubTable,
      lookupRow ((tbl.filter (fun r => decide (r.1 ≠ rid))) ++ [(rid, row)]) rid2
        = lookupRow tbl rid2
  | [] => by
    rw [List.filter_nil, List.nil_append, lookupRow_cons,
      if_neg (fun hc => hne hc.symm)]
  | r :: rs => by
    by_cases hr : r.1 = rid
    · rw [List.filter_cons_of_neg (by simp [hr])]
      have hrhs : lookupRow (r :: rs) rid2 = lookupRow rs rid2 := by
        rw [lookupRow_cons, if_neg (fun hc => hne (hc.symm.trans hr))]
      rw [hrhs]
      exact lookupRow_insert_other rid rid2 row hne rs
    · rw [List.filter_cons_of_pos (by simpa using hr), List.cons_append,
        lookupRow_cons, lookupRow_cons]
      by_cases h2 : r.1 = rid2
      · rw [if_pos h2, if_pos h2]
      · rw [if_neg h2, if_neg h2]
        exact lookupRow_insert_other rid rid2 row hne rs

theorem updRow_key (now : Int) (d rid : String) (r : String × HubRow) :
    (updRow now d rid r).1 = r.1 := by
  unfold updRow
  split
  · rfl
  · rfl

theorem lookupRow_map_upd_hit (now : Int) (d rid : String) :
    ∀ (tbl : HubTable) (row : HubRow), lookupRow tbl rid = some row →
      lookupRow (tbl.map (updRow now d rid)) rid
        = some ⟨d, row.created_at, now⟩
  | [], row, h => by
    rw [show lookupRow ([] : HubTable) rid = none from rfl] at h
    exact Option.noConfusion h
  | r :: rs, row, h => by
    rw [lookupRow_cons] at h
    rw [List.map_cons, lookupRow_cons, updRow_key]
    by_cases hr : r.1 = rid
    · rw [if_pos hr] at h
      have hrow : r.2 = row := Option.some.inj h
      rw [if_pos hr]
      simp [updRow, hr, hrow]
    · rw [if_neg hr] at h
      rw [if_neg hr]
      exact lookupRow_map_upd_hit now d rid rs row h

theorem lookupRow_map_upd_other (now : Int) (d rid rid2 : String)
    (hne : rid2 ≠ rid) :
    ∀ tbl : HubTable,
      lookupRow (tbl.map (updRow now d rid)) rid2 = lookupRow tbl rid2
  | [] => rfl
  | r :: rs => by
    rw [List.map_cons, lookupRow_cons, updRow_key, lookupRow_cons]
    by_cases h2 : r.1 = rid2
    · rw [if_pos h2, if_pos h2]
      have hrk : ¬r.1 = rid := fun hc => hne (h2.symm.trans hc)
      simp [updRow, hrk]
    · rw [if_neg h2, if_neg h2]
      exact lookupRow_map_upd_other now d rid rid2 hne rs

theorem map_upd_of_absent (now : Int) (d rid : String) :
    ∀ tbl : HubTable, lookupRow tbl rid = none →
      tbl.map (updRow now d rid) = tbl
  | [], _ => rfl
  | r :: rs, h => by
    rw [lookupRow_cons] at h
    by_cases hr : r.1 = rid
    · rw [if_pos hr] at h
      exact Option.noConfusion h
    · rw [if_neg hr] at h
      rw [List.map_cons, map_upd_of_absent now d rid rs h]
      simp [updRow, hr]

theorem lookupRow_filter_out (rid : String) :
    ∀ tbl : HubTable,
      lookupRow (tbl.filter (fun r => decide (r.1 ≠ rid))) rid = none
  | [] => rfl
  | r :: rs => by
    by_cases hr : r.1 = rid
    · rw [List.filter_cons_of_neg (by simp [hr])]
      exact lookupRow_filter_out rid rs
    · rw [List.filter_cons_of_pos (by simpa using hr), lookupRow_cons,
        if_neg hr]
      exact lookupRow_filter_out rid rs

/-- C6 (amended): for every payload carrying a non-falsy id, `insert`
resolves to an upsert-by-id with last-write-wins (the stored row for the id
equals the latest payload whether or not a row existed, other ids
untouched); `update` overwrites the row for that id only when one already
exists — it leaves the table unchanged when the id is absent — and
`delete` removes the row with that id. -/
theorem hub_apply_upsert_spec (now : Int) (p : Payload) (tbl : HubTable)
    (rid : String) (hid : pget p "id" = some rid) (hne : rid ≠ "") :
    (lookupRow (insertRecord now p tbl) rid = some ⟨dumps p, now, now⟩ ∧
     ∀ rid2, rid2 ≠ rid →
       lookupRow (insertRecord now p tbl) rid2 = lookupRow tbl rid2) ∧
    (∃ tbl2, updateRecord now p tbl = some tbl2 ∧
      (lookupRow tbl rid = none → tbl2 = tbl) ∧
      (∀ row, lookupRow tbl rid = some row →
        lookupRow tbl2 rid = some ⟨dumps p, row.created_at, now⟩ ∧
        ∀ rid2, rid2 ≠ rid → lookupRow tbl2 rid2 = lookupRow tbl rid2)) ∧
    (∃ tbl3, deleteRecord p tbl = some tbl3 ∧ lookupRow tbl3 rid = none) := by
  have hrid : (pget p "id").getD (pyStr p) = rid := by
    rw [hid]
    rfl
  refine ⟨⟨?_, ?_⟩, ?_, ?_⟩
  · simp only [insertRecord]
    rw [hrid]
    refine lookupRow_append_new rid _ _ ?_
    intro r hr
    have := List.mem_filter.mp hr
    simpa using this.2
  · intro rid2 h2
    simp only [insertRecord]
    rw [hrid]
    exact lookupRow_insert_other rid rid2 _ h2 tbl
  · refine ⟨tbl.map (updRow now (dumps p) rid), ?_, ?_, ?_⟩
    · unfold updateRecord
      rw [hid]
      simp [hne]
    · exact map_upd_of_absent now (dumps p) rid tbl
    · intro row hrow
      exact ⟨lookupRow_map_upd_hit now (dumps p) rid tbl row hrow,
        fun rid2 h2 => lookupRow_map_upd_other now (dumps p) rid rid2 h2 tbl⟩
  · refine ⟨tbl.filter (fun r => decide (r.1 ≠ rid)), ?_, ?_⟩
    · unfold deleteRecord
      rw [hid]
      simp [hne]
    · exact lookupRow_filter_out rid tbl

/-- Witness for `hub_apply_upsert_spec` at the concrete payload `pX` and a
one-row table. -/
theorem hub_apply_upsert_spec_witness :
    lookupRow (insertRecord 7 pX [("x", ⟨"old", 0, 0⟩)]) "x"
        = some ⟨dumps pX, 7, 7⟩ ∧
    (∃ tbl3, deleteRecord pX [("x", ⟨"old", 0, 0⟩)] = some tbl3 ∧
      lookupRow tbl3 "x" = none) :=
  have h := hub_apply_upsert_spec 7 pX [("x", ⟨"old", 0, 0⟩)] "x"
    (by rfl) (by decide)
  ⟨h.1.1, h.2.2⟩

end Commander
